import Mathlib

/-!
Verification of the Ray-Tracer repository (src/Main.cpp, src/sphere.h).

The C++ `double` values are modelled as real numbers; `int` values as `ℤ`
(or `ℕ` for loop counters that the code keeps non-negative).  Headers of the
repository that are not present under `src/` (vec3.h, ray.h, hittable.h,
camera.h, color.h, material.h) are modelled from the specification; every
such definition carries a doc comment saying so.  `src/sphere.h` and
`src/Main.cpp` are translated directly from the source.
-/

/-- Modelled from the spec: vec3.h is not in src/.  §3 Data model — a
3-vector of doubles; used structurally for `point3` and `color` alike. -/
@[ext]
structure Vec3 where
  x : ℝ
  y : ℝ
  z : ℝ

abbrev point3 := Vec3
abbrev color := Vec3

/-- Modelled from the spec: component-wise addition (vec3.h operator+). -/
instance : Add Vec3 := ⟨fun a b => ⟨a.x + b.x, a.y + b.y, a.z + b.z⟩⟩

/-- Modelled from the spec: component-wise subtraction (vec3.h operator-). -/
instance : Sub Vec3 := ⟨fun a b => ⟨a.x - b.x, a.y - b.y, a.z - b.z⟩⟩

/-- Modelled from the spec: component-wise negation (vec3.h unary operator-). -/
instance : Neg Vec3 := ⟨fun a => ⟨-a.x, -a.y, -a.z⟩⟩

/-- Modelled from the spec: component-wise product (vec3.h operator*,
used for `attenuation * ray_color(...)`). -/
instance : Mul Vec3 := ⟨fun a b => ⟨a.x * b.x, a.y * b.y, a.z * b.z⟩⟩

/-- Modelled from the spec: scalar multiple (vec3.h operator* with a double). -/
instance : SMul ℝ Vec3 := ⟨fun s a => ⟨s * a.x, s * a.y, s * a.z⟩⟩

instance : Zero Vec3 := ⟨⟨0, 0, 0⟩⟩

@[simp] lemma Vec3.add_def (a b : Vec3) : a + b = ⟨a.x + b.x, a.y + b.y, a.z + b.z⟩ := rfl

@[simp] lemma Vec3.sub_def (a b : Vec3) : a - b = ⟨a.x - b.x, a.y - b.y, a.z - b.z⟩ := rfl

@[simp] lemma Vec3.neg_def (a : Vec3) : -a = ⟨-a.x, -a.y, -a.z⟩ := rfl

@[simp] lemma Vec3.mul_def (a b : Vec3) : a * b = ⟨a.x * b.x, a.y * b.y, a.z * b.z⟩ := rfl

@[simp] lemma Vec3.smul_def (s : ℝ) (a : Vec3) : s • a = ⟨s * a.x, s * a.y, s * a.z⟩ := rfl

@[simp] lemma Vec3.zero_def : (0 : Vec3) = ⟨0, 0, 0⟩ := rfl

/-- Vec3 is a commutative additive monoid, so that sample sums can be
written with `Finset.sum` (the accumulation `pixel_color +=` in Main.cpp). -/
instance : AddCommMonoid Vec3 where
  add_assoc := by intro a b c; ext <;> simp <;> ring
  zero_add := by intro a; ext <;> simp
  add_zero := by intro a; ext <;> simp
  add_comm := by intro a b; ext <;> simp <;> ring
  nsmul := nsmulRec

/-- Modelled from the spec: vec3.h division of a vector by a double. -/
noncomputable def Vec3.divScalar (v : Vec3) (s : ℝ) : Vec3 := ⟨v.x / s, v.y / s, v.z / s⟩

/-- Modelled from the spec: dot product (vec3.h `dot`). -/
def dot (a b : Vec3) : ℝ := a.x * b.x + a.y * b.y + a.z * b.z

/-- Modelled from the spec: squared norm (vec3.h `length_squared`). -/
def Vec3.length_squared (v : Vec3) : ℝ := v.x * v.x + v.y * v.y + v.z * v.z

/-- Modelled from the spec: norm (vec3.h `length`). -/
noncomputable def Vec3.length (v : Vec3) : ℝ := Real.sqrt v.length_squared

/-- Modelled from the spec: §4.1 `unit_vector(v)` returns `v / |v|`. -/
noncomputable def unit_vector (v : Vec3) : Vec3 := v.divScalar v.length

/-- Modelled from the spec: ray.h is not in src/.  §3 — origin plus
direction, with `point_at(t) = origin + t·direction` (called `r.at(t)` by
sphere.h). -/
structure ray where
  origin : point3
  direction : Vec3

/-- `r.at(t) = origin + t·direction`. -/
def ray.at (r : ray) (t : ℝ) : point3 := r.origin + t • r.direction

/-- Modelled from the spec: hittable.h is not in src/.  The geometric part
of the hit record (§3): hit point `p`, unit `normal` facing the ray,
parameter `t`, `front_face` true iff the ray struck the outside.  Split off
so that a material's scatter function, which reads only these fields, can
be defined before the full record. -/
structure HitRecCore where
  p : point3
  normal : Vec3
  t : ℝ
  front_face : Bool

/-- Modelled from the spec: material.h is not in src/.  §3 — a material is
its scatter capability: `scatter(incoming, hit) -> Option (attenuation,
scattered)`; `none` means the ray was absorbed. -/
def material := ray → HitRecCore → Option (color × ray)

/-- Modelled from the spec: hittable.h is not in src/.  The full hit
record: geometry plus the material reference.  In the C++ code the field is
`shared_ptr<material> mat_ptr`, which a default-constructed record leaves
null; `none` models that null pointer. -/
structure hit_record extends HitRecCore where
  mat_ptr : Option material

/-- A default-constructed `hit_record rec;` (as in ray_color): the
shared_ptr is null; the numeric fields are indeterminate in C++ and are
fixed to zero here — no claim depends on them before they are written. -/
def hit_record.init : hit_record := ⟨⟨⟨0, 0, 0⟩, ⟨0, 0, 0⟩, 0, false⟩, none⟩

/-- Modelled from the spec: hittable.h is not in src/.  §4.2
`set_face_normal(r, outward_normal)` sets `front_face = dot(r.direction,
outward_normal) < 0` and stores the normal flipped to face the ray. -/
noncomputable def hit_record.set_face_normal (rec : hit_record) (r : ray)
    (outward_normal : Vec3) : hit_record :=
  let ff := dot r.direction outward_normal < 0
  { rec with front_face := decide ff,
             normal := if ff then outward_normal else -outward_normal }

/-- Translated from src/sphere.h lines 7–17: the sphere class.  It stores
only a center and a radius — note there is no material member and no
constructor taking one, although Main.cpp passes one. -/
structure sphere where
  center : point3
  radius : ℝ

/-- The local `outward_normal = (rec.p - center) / radius` computed on both
success paths of sphere::hit (src/sphere.h lines 34 and 43). -/
noncomputable def sphere.outwardNormal (s : sphere) (p : point3) : Vec3 :=
  (p - s.center).divScalar s.radius

/-- Translated from src/sphere.h lines 19–49, `sphere::hit`.  The C++
out-parameter `hit_record& rec` becomes an explicit argument, and the
result is the returned bool paired with the record's final contents. -/
noncomputable def sphere.hit (s : sphere) (r : ray) (tmin tmax : ℝ)
    (rec : hit_record) : Bool × hit_record :=
  let oc := r.origin - s.center
  let a := r.direction.length_squared
  let half_b := dot oc r.direction
  let c := oc.length_squared - s.radius * s.radius
  let discriminant := half_b * half_b - a * c
  if discriminant > 0 then
    let root := Real.sqrt discriminant
    let temp₁ := (-half_b - root) / a
    if temp₁ < tmax ∧ temp₁ > tmin then
      let rec₁ : hit_record := { rec with t := temp₁, p := r.at temp₁ }
      (true, rec₁.set_face_normal r (s.outwardNormal rec₁.p))
    else
      let temp₂ := (-half_b + root) / a
      if temp₂ < tmax ∧ temp₂ > tmin then
        let rec₂ : hit_record := { rec with t := temp₂, p := r.at temp₂ }
        (true, rec₂.set_face_normal r (s.outwardNormal rec₂.p))
      else (false, rec)
  else (false, rec)

/-- Written from the spec's own words (§4.2 and claim C2), to be compared
with the translated `sphere.hit`: compute `oc`, `a`, `half_b`, `c`, `Δ`;
miss when `Δ ≤ 0`; otherwise accept the first root `(−half_b − √Δ)/a` if it
lies strictly inside `(tmin, tmax)`, else the second root
`(−half_b + √Δ)/a` under the same test, else miss.  Returns the accepted
ray parameter. -/
noncomputable def sphereHitSpec (s : sphere) (r : ray) (tmin tmax : ℝ) : Option ℝ :=
  let oc := r.origin - s.center
  let a := r.direction.length_squared
  let half_b := dot oc r.direction
  let c := oc.length_squared - s.radius * s.radius
  let Δ := half_b * half_b - a * c
  if Δ ≤ 0 then none
  else
    let root := Real.sqrt Δ
    let t₁ := (-half_b - root) / a
    if tmin < t₁ ∧ t₁ < tmax then some t₁
    else
      let t₂ := (-half_b + root) / a
      if tmin < t₂ ∧ t₂ < tmax then some t₂ else none

/-- Modelled from the spec: hittable.h and hittable_list.h are not in
src/.  §3 — a hittable is its intersection capability
`hit(ray, tmin, tmax) -> Option<HitRecord>`; `tmax` is an extended real so
that `ray_color`'s call with `tmax = +∞` (Main.cpp line 20) is expressible. -/
structure hittable where
  hit : ray → ℝ → EReal → Option hit_record

/-- The null-pointer dereference `rec.mat_ptr->scatter(...)` of Main.cpp
line 23, made total: a null `mat_ptr` yields `none` (in C++ this is
undefined behaviour; it is unreachable once every hit record carries its
material, which is what claim C1 is about). -/
def scatterAt (rec : hit_record) (r : ray) : Option (color × ray) :=
  match rec.mat_ptr with
  | some m => m r rec.toHitRecCore
  | none => none

/-- Translated from src/Main.cpp lines 13–31, `ray_color`.  `depth` is the
C++ `int`, so `ℤ`; the recursion is on `depth.toNat`, which the `depth ≤ 0`
guard makes decrease. -/
noncomputable def ray_color (world : hittable) (r : ray) (depth : ℤ) : color :=
  if depth ≤ 0 then ⟨0, 0, 0⟩
  else
    match world.hit r (1/1000) ⊤ with
    | some rec =>
      match scatterAt rec r with
      | some (attenuation, scattered) =>
          attenuation * ray_color world scattered (depth - 1)
      | none => ⟨0, 0, 0⟩
    | none =>
      let unit_direction := unit_vector r.direction
      let t := 1/2 * (unit_direction.y + 1)
      (1 - t) • (⟨1, 1, 1⟩ : color) + t • (⟨1/2, 7/10, 1⟩ : color)
termination_by depth.toNat
decreasing_by
  simp only [not_le] at *
  omega

/-- Fuel-indexed restatement of `ray_color`, structurally recursive on a
natural-number fuel: `rayColorN world r n` performs at most `n` levels of
recursion.  Used to bound `ray_color`'s recursion depth (claim C4). -/
noncomputable def rayColorN (world : hittable) : ray → ℕ → color
  | _, 0 => ⟨0, 0, 0⟩
  | r, n + 1 =>
    match world.hit r (1/1000) ⊤ with
    | some rec =>
      match scatterAt rec r with
      | some (attenuation, scattered) => attenuation * rayColorN world scattered n
      | none => ⟨0, 0, 0⟩
    | none =>
      let unit_direction := unit_vector r.direction
      let t := 1/2 * (unit_direction.y + 1)
      (1 - t) • (⟨1, 1, 1⟩ : color) + t • (⟨1/2, 7/10, 1⟩ : color)

/-- Translated from src/Main.cpp line 124: the outer loop
`for (int j = image_height-1; j >= 0; --j)` visits the row indices
`H−1, H−2, …, 0` in that order. -/
def rowLoop : ℕ → List ℕ
  | 0 => []
  | j + 1 => j :: rowLoop j

/-- Translated from src/Main.cpp lines 124–142: the pixel visiting order of
the two nested loops — rows `j` from `image_height−1` down to `0`, and
within a row columns `i` from `0` up to `image_width−1`.  Each `(i, j)`
pair stands for the one `write_color` call made for that pixel. -/
def pixelOrder (W H : ℕ) : List (ℕ × ℕ) :=
  (rowLoop H).flatMap (fun j => (List.range W).map (fun i => (i, j)))

/-- Translated from src/Main.cpp line 97: the header write
`out << "P3\n" << image_width << ' ' << image_height << "\n255\n"`. -/
def ppmHeader (image_width image_height : ℤ) : String :=
  "P3\n" ++ toString image_width ++ " " ++ toString image_height ++ "\n255\n"

/-- Translated from src/Main.cpp lines 95–142: the whole character stream
written to the output file — the header first (line 97), then whatever the
pixel loop writes (`body`). -/
def ppmStream (image_width image_height : ℤ) (body : String) : String :=
  ppmHeader image_width image_height ++ body

/-- C++ `static_cast<int>` on a floating-point value truncates toward
zero.  Modelled on `ℚ` (the exact value of the double quotient): floor for
non-negative arguments, ceiling for negative ones. -/
def staticCastInt (q : ℚ) : ℤ := if 0 ≤ q then ⌊q⌋ else ⌈q⌉

/-- Translated from src/Main.cpp line 89:
`image_height = static_cast<int>(image_width / aspect_ratio)`. -/
def derivedImageHeight (image_width : ℤ) ( aspect_ratio : ℚ) : ℤ :=
  staticCastInt (image_width / aspect_ratio)

/-- Modelled from the spec: camera.h is not in src/.  For the sampling
claim the camera is opaque: any function from the normalized screen
coordinates `(s, t)` to a primary ray (its internal lens sampling is out of
this claim's scope). -/
def cameraFun := ℝ → ℝ → ray

/-- Translated from src/Main.cpp lines 130–136: the per-pixel sampling
loop.  `ξ` is the stream of `random_double()` results and `k` the number of
draws consumed so far; each iteration draws `ξ k` for `u` and `ξ (k+1)` for
`v`, shoots `cam u v`, and accumulates `ray_color`.  `n` counts the
remaining iterations of `for (int s = 0; s < samples_per_pixel; ++s)`. -/
noncomputable def sampleLoop (cam : cameraFun) (world : hittable) (max_depth : ℤ)
    (W H : ℤ) (i j : ℤ) (ξ : ℕ → ℝ) : ℕ → color × ℕ → color × ℕ
  | 0, acc => acc
  | n + 1, (pixel_color, k) =>
    let u := ((i : ℝ) + ξ k) / ((W : ℝ) - 1)
    let v := ((j : ℝ) + ξ (k + 1)) / ((H : ℝ) - 1)
    let r := cam u v
    sampleLoop cam world max_depth W H i j ξ n
      (pixel_color + ray_color world r max_depth, k + 2)

/-- Modelled from the spec: color.h (`write_color`) is not in src/.  §4.7 —
divide the accumulated color by the sample count, gamma-correct with γ=2
(square root), clamp each channel to `[0, 0.999]`, scale by 256 and
truncate to an integer. -/
noncomputable def write_color (pixel_color : color) (samples_per_pixel : ℕ) : ℤ × ℤ × ℤ :=
  let scale := 1 / (samples_per_pixel : ℝ)
  let chan := fun comp : ℝ =>
    ⌊(256 : ℝ) * min (max (Real.sqrt (scale * comp)) 0) (999/1000)⌋
  (chan pixel_color.x, chan pixel_color.y, chan pixel_color.z)

/-- Translated from src/Main.cpp lines 127–141: the value emitted for the
pixel at column `i`, row `j`, when the RNG stream stands at position `k₀`:
run the `samples_per_pixel` sampling iterations starting from
`pixel_color = (0,0,0)` and hand the accumulated sum to `write_color`. -/
noncomputable def pixelEmit (cam : cameraFun) (world : hittable) (max_depth : ℤ)
    (W H : ℤ) (i j : ℤ) (ξ : ℕ → ℝ) (k₀ : ℕ) (samples_per_pixel : ℕ) : ℤ × ℤ × ℤ :=
  write_color (sampleLoop cam world max_depth W H i j ξ samples_per_pixel (⟨0, 0, 0⟩, k₀)).1
    samples_per_pixel

@[simp] lemma set_face_normal_mat_ptr (rec : hit_record) (r : ray) (n : Vec3) :
    (rec.set_face_normal r n).mat_ptr = rec.mat_ptr := rfl

@[simp] lemma set_face_normal_t (rec : hit_record) (r : ray) (n : Vec3) :
    (rec.set_face_normal r n).t = rec.t := rfl

@[simp] lemma set_face_normal_p (rec : hit_record) (r : ray) (n : Vec3) :
    (rec.set_face_normal r n).p = rec.p := rfl

lemma sqrt_four : Real.sqrt (4 : ℝ) = 2 := by
  rw [show (4 : ℝ) = 2^2 by norm_num, Real.sqrt_sq (by norm_num : (0:ℝ) ≤ 2)]

/-- C1: `sphere::hit` never writes the hit record's material reference — on
every path the output record's `mat_ptr` is exactly the input's — and on
the concrete Main.cpp sphere `center (0,0,−1), radius 1/2` hit by the ray
`origin (0,0,0), direction (0,0,−1)` on `(0.001, 100)` it returns success
while the default-constructed record still carries the null material
pointer, contradicting the spec's promise that successful intersections
populate the material reference (the pointer `ray_color` then
dereferences). -/
theorem sphere_hit_never_writes_mat_ptr :
    (∀ (s : sphere) (r : ray) (tmin tmax : ℝ) (rec : hit_record),
        ((s.hit r tmin tmax rec).2).mat_ptr = rec.mat_ptr) ∧
    (sphere.hit ⟨⟨0,0,-1⟩, 1/2⟩ ⟨⟨0,0,0⟩, ⟨0,0,-1⟩⟩ (1/1000) 100 hit_record.init).1 = true ∧
    ((sphere.hit ⟨⟨0,0,-1⟩, 1/2⟩ ⟨⟨0,0,0⟩, ⟨0,0,-1⟩⟩ (1/1000) 100 hit_record.init).2).mat_ptr
      = none := by
  refine ⟨?_, ?_⟩
  · intro s r tmin tmax rec
    unfold sphere.hit
    dsimp only
    split_ifs <;> simp
  · unfold sphere.hit
    norm_num [dot, Vec3.length_squared, ray.at, sqrt_four, hit_record.init]

/-- C2: the translated `sphere::hit` agrees with the specification's
description — it succeeds exactly when the spec-side root search accepts a
root (miss when `Δ ≤ 0`, else first root `(−half_b − √Δ)/a` if strictly
inside `(tmin, tmax)`, else second root, else miss), and on success the
record's `t` is that accepted root. -/
theorem sphere_hit_matches_spec (s : sphere) (r : ray) (tmin tmax : ℝ) (rec : hit_record) :
    ((s.hit r tmin tmax rec).1 = true ↔ (sphereHitSpec s r tmin tmax).isSome) ∧
    (∀ t, sphereHitSpec s r tmin tmax = some t →
      (s.hit r tmin tmax rec).1 = true ∧ ((s.hit r tmin tmax rec).2).t = t) := by
  unfold sphere.hit sphereHitSpec
  dsimp only
  set oc := r.origin - s.center with hoc
  set a := r.direction.length_squared with ha
  set half_b := dot oc r.direction with hhb
  set c := oc.length_squared - s.radius * s.radius with hc
  set disc := half_b * half_b - a * c with hdisc
  set t₁ := (-half_b - Real.sqrt disc) / a with ht₁
  set t₂ := (-half_b + Real.sqrt disc) / a with ht₂
  by_cases hd : disc > 0
  · rw [if_pos hd, if_neg (not_le.mpr hd)]
    by_cases h1 : t₁ < tmax ∧ t₁ > tmin
    · rw [if_pos h1, if_pos (show tmin < t₁ ∧ t₁ < tmax from ⟨h1.2, h1.1⟩)]
      refine ⟨by simp, ?_⟩
      intro t ht
      cases ht
      exact ⟨rfl, by simp⟩
    · rw [if_neg h1, if_neg (show ¬(tmin < t₁ ∧ t₁ < tmax) from fun h => h1 ⟨h.2, h.1⟩)]
      by_cases h2 : t₂ < tmax ∧ t₂ > tmin
      · rw [if_pos h2, if_pos (show tmin < t₂ ∧ t₂ < tmax from ⟨h2.2, h2.1⟩)]
        refine ⟨by simp, ?_⟩
        intro t ht
        cases ht
        exact ⟨rfl, by simp⟩
      · rw [if_neg h2, if_neg (show ¬(tmin < t₂ ∧ t₂ < tmax) from fun h => h2 ⟨h.2, h.1⟩)]
        simp
  · rw [if_neg hd, if_pos (not_lt.mp hd)]
    simp

/-- C2 witness: on the sphere `center (0,0,−1), radius 1/2` and the ray
`origin (0,0,0), direction (0,0,−1)` with interval `(0.001, 100)`, the
spec-side search accepts `t = 1/2` and so `sphere::hit` succeeds with
`rec.t = 1/2`. -/
theorem sphere_hit_matches_spec_witness :
    (sphere.hit ⟨⟨0,0,-1⟩, 1/2⟩ ⟨⟨0,0,0⟩, ⟨0,0,-1⟩⟩ (1/1000) 100 hit_record.init).1 = true ∧
    ((sphere.hit ⟨⟨0,0,-1⟩, 1/2⟩ ⟨⟨0,0,0⟩, ⟨0,0,-1⟩⟩ (1/1000) 100 hit_record.init).2).t = 1/2 :=
  (sphere_hit_matches_spec ⟨⟨0,0,-1⟩, 1/2⟩ ⟨⟨0,0,0⟩, ⟨0,0,-1⟩⟩ (1/1000) 100
    hit_record.init).2 (1/2)
    (by unfold sphereHitSpec; norm_num [dot, Vec3.length_squared, sqrt_four])

/-- C10: whenever `sphere::hit` returns false the hit record is returned
with exactly the contents it had on entry — the record is only written on
the two success paths. -/
theorem sphere_hit_miss_frame (s : sphere) (r : ray) (tmin tmax : ℝ) (rec : hit_record) :
    (s.hit r tmin tmax rec).1 = false → (s.hit r tmin tmax rec).2 = rec := by
  unfold sphere.hit
  dsimp only
  split_ifs <;> simp

/-- C10 witness: the ray `origin (0,0,0), direction (1,0,0)` misses the
sphere `center (0,0,−1), radius 1/2` (negative discriminant), and the
arbitrary record passed in comes back untouched. -/
theorem sphere_hit_miss_frame_witness :
    (sphere.hit ⟨⟨0,0,-1⟩, 1/2⟩ ⟨⟨0,0,0⟩, ⟨1,0,0⟩⟩ (1/1000) 100
        ⟨⟨⟨1,2,3⟩, ⟨4,5,6⟩, 7, true⟩, none⟩).1 = false ∧
    (sphere.hit ⟨⟨0,0,-1⟩, 1/2⟩ ⟨⟨0,0,0⟩, ⟨1,0,0⟩⟩ (1/1000) 100
        ⟨⟨⟨1,2,3⟩, ⟨4,5,6⟩, 7, true⟩, none⟩).2 = ⟨⟨⟨1,2,3⟩, ⟨4,5,6⟩, 7, true⟩, none⟩ := by
  have hf : (sphere.hit ⟨⟨0,0,-1⟩, 1/2⟩ ⟨⟨0,0,0⟩, ⟨1,0,0⟩⟩ (1/1000) 100
      ⟨⟨⟨1,2,3⟩, ⟨4,5,6⟩, 7, true⟩, none⟩).1 = false := by
    unfold sphere.hit
    norm_num [dot, Vec3.length_squared]
  exact ⟨hf, sphere_hit_miss_frame _ _ _ _ _ hf⟩

/-- C9: for a sphere of negative radius, `sphere::hit` succeeds exactly
when it does on the positive-radius sphere with the same center and
`|radius|`, at the same `t` and hit point `p` (the radius enters the
quadratic only squared), and the outward normal `(p − center)/radius`
computed on the success paths points opposite to that of the
positive-radius sphere — the inversion that models the inner shell of
hollow glass. -/
theorem negative_radius_flips_outward_normal (s : sphere) (r : ray) (tmin tmax : ℝ)
    (rec : hit_record) (hneg : s.radius < 0) :
    ((s.hit r tmin tmax rec).1 = (sphere.hit ⟨s.center, |s.radius|⟩ r tmin tmax rec).1) ∧
    ((s.hit r tmin tmax rec).1 = true →
      ((s.hit r tmin tmax rec).2).t = ((sphere.hit ⟨s.center, |s.radius|⟩ r tmin tmax rec).2).t ∧
      ((s.hit r tmin tmax rec).2).p = ((sphere.hit ⟨s.center, |s.radius|⟩ r tmin tmax rec).2).p ∧
      s.outwardNormal ((s.hit r tmin tmax rec).2).p
        = -(sphere.outwardNormal ⟨s.center, |s.radius|⟩
            ((sphere.hit ⟨s.center, |s.radius|⟩ r tmin tmax rec).2).p)) := by
  obtain ⟨cen, rad⟩ := s
  dsimp only at hneg ⊢
  rw [abs_of_neg hneg]
  unfold sphere.hit sphere.outwardNormal
  dsimp only
  rw [show -rad * -rad = rad * rad by ring]
  split_ifs with h1 h2 h3
  · refine ⟨rfl, fun _ => ⟨by simp, by simp, ?_⟩⟩
    ext <;> simp [Vec3.divScalar, div_neg]
  · refine ⟨rfl, fun _ => ⟨by simp, by simp, ?_⟩⟩
    ext <;> simp [Vec3.divScalar, div_neg]
  · simp
  · simp

/-- C9 witness: the hollow-glass inner sphere `center (0,0,−2), radius −1`
is hit by the axial ray `origin (0,0,0), direction (0,0,−1)`, and its
outward normal at the hit point is the negation of the radius-1 sphere's. -/
theorem negative_radius_flips_outward_normal_witness :
    (sphere.hit ⟨⟨0,0,-2⟩, -1⟩ ⟨⟨0,0,0⟩, ⟨0,0,-1⟩⟩ (1/1000) 100 hit_record.init).1 = true ∧
    sphere.outwardNormal ⟨⟨0,0,-2⟩, -1⟩
        ((sphere.hit ⟨⟨0,0,-2⟩, -1⟩ ⟨⟨0,0,0⟩, ⟨0,0,-1⟩⟩ (1/1000) 100 hit_record.init).2).p
      = -(sphere.outwardNormal ⟨⟨0,0,-2⟩, (1:ℝ)⟩
        ((sphere.hit ⟨⟨0,0,-2⟩, (1:ℝ)⟩ ⟨⟨0,0,0⟩, ⟨0,0,-1⟩⟩ (1/1000) 100 hit_record.init).2).p) := by
  have h := negative_radius_flips_outward_normal ⟨⟨0,0,-2⟩, -1⟩ ⟨⟨0,0,0⟩, ⟨0,0,-1⟩⟩
    (1/1000) 100 hit_record.init (by norm_num)
  rw [show |(-1 : ℝ)| = 1 by norm_num] at h
  have htrue : (sphere.hit ⟨⟨0,0,-2⟩, -1⟩ ⟨⟨0,0,0⟩, ⟨0,0,-1⟩⟩ (1/1000) 100
      hit_record.init).1 = true := by
    unfold sphere.hit
    norm_num [dot, Vec3.length_squared, ray.at, Real.sqrt_one]
  exact ⟨htrue, (h.2 htrue).2.2⟩

/-- C3: `ray_color`'s complete case analysis — at `depth ≤ 0` it returns
black; at positive depth, if `world.hit(r, 0.001, +∞)` yields a record
whose material scatters it returns the attenuation times
`ray_color(scattered, world, depth−1)`, if the material absorbs it returns
black, and if nothing is hit it returns the gradient
`(1−t)·(1,1,1) + t·(0.5,0.7,1.0)` with `t = 0.5·(unit(r.direction).y + 1)`. -/
theorem ray_color_cases (world : hittable) (r : ray) (depth : ℤ) :
    (depth ≤ 0 → ray_color world r depth = ⟨0, 0, 0⟩) ∧
    (0 < depth →
      (∀ rec, world.hit r (1/1000) ⊤ = some rec →
        (∀ attenuation scattered, scatterAt rec r = some (attenuation, scattered) →
          ray_color world r depth = attenuation * ray_color world scattered (depth - 1)) ∧
        (scatterAt rec r = none → ray_color world r depth = ⟨0, 0, 0⟩)) ∧
      (world.hit r (1/1000) ⊤ = none →
        ray_color world r depth
          = (1 - (1/2 * ((unit_vector r.direction).y + 1))) • (⟨1,1,1⟩ : color)
            + (1/2 * ((unit_vector r.direction).y + 1)) • (⟨1/2, 7/10, 1⟩ : color))) := by
  refine ⟨fun h => ?_, fun hpos => ?_⟩
  · rw [ray_color, if_pos h]
  · have hnle : ¬(depth ≤ 0) := not_le.mpr hpos
    refine ⟨fun rec hhit => ⟨fun att sc hsc => ?_, fun hsc => ?_⟩, fun hmiss => ?_⟩
    · rw [ray_color, if_neg hnle, hhit]
      simp [hsc]
    · rw [ray_color, if_neg hnle, hhit]
      simp [hsc]
    · rw [ray_color, if_neg hnle, hmiss]

/-- C3 witness: in a world whose hit always misses, a ray with direction
`(0,1,0)` at depth 5 is colored by the background gradient, giving the pure
sky color `(0.5, 0.7, 1.0)`. -/
theorem ray_color_cases_witness :
    ray_color ⟨fun _ _ _ => none⟩ ⟨⟨0,0,0⟩, ⟨0,1,0⟩⟩ 5 = ⟨1/2, 7/10, 1⟩ := by
  have h := (ray_color_cases ⟨fun _ _ _ => none⟩ ⟨⟨0,0,0⟩, ⟨0,1,0⟩⟩ 5).2 (by norm_num)
  rw [h.2 rfl]
  ext <;> norm_num [unit_vector, Vec3.divScalar, Vec3.length, Vec3.length_squared, Real.sqrt_one]

/-- C4: `ray_color` terminates, with recursion depth at most
`max(depth, 0)` — its value coincides with that of the fuel-indexed
`rayColorN` run on exactly `depth.toNat = max(depth, 0)` units of fuel,
each recursive call consuming one (`depth` decreases by exactly 1 and the
`depth ≤ 0` case returns without recursing). -/
theorem ray_color_depth_bound (world : hittable) (r : ray) (depth : ℤ) :
    ray_color world r depth = rayColorN world r depth.toNat := by
  suffices h : ∀ (n : ℕ) (depth : ℤ) (r : ray), depth.toNat = n →
      ray_color world r depth = rayColorN world r n from h depth.toNat depth r rfl
  intro n
  induction n with
  | zero =>
    intro depth r hn
    have hle : depth ≤ 0 := by omega
    rw [ray_color, if_pos hle]
    rfl
  | succ n ih =>
    intro depth r hn
    have hpos : 0 < depth := by omega
    rw [ray_color, if_neg (not_le.mpr hpos)]
    cases hhit : world.hit r (1/1000) ⊤ with
    | none => simp only [rayColorN, hhit]
    | some rec =>
      cases hsc : scatterAt rec r with
      | none => simp only [rayColorN, hhit, hsc]
      | some pr =>
        obtain ⟨att, sc⟩ := pr
        simp only [rayColorN, hhit, hsc]
        rw [ih (depth - 1) sc (by omega)]

/-- C5: the per-pixel sampling loop accumulates exactly
`samples_per_pixel` samples onto the incoming accumulator, the `s`-th
being `ray_color(cam(u, v), world, max_depth)` with
`u = (i + ξ₁)/(W−1)` and `v = (j + ξ₂)/(H−1)` where `ξ₁ = ξ (k₀ + 2s)` and
`ξ₂ = ξ (k₀ + 2s + 1)` are fresh draws from the RNG stream (two per sample,
none reused — the stream position advances to `k₀ + 2N`); and the value
emitted for the pixel is `write_color` of the accumulated sum, which
divides it by `samples_per_pixel`. -/
theorem pixel_sampling_characterization (cam : cameraFun) (world : hittable)
    (max_depth : ℤ) (W H i j : ℤ) (ξ : ℕ → ℝ) :
    (∀ (N k₀ : ℕ) (pc₀ : color),
      sampleLoop cam world max_depth W H i j ξ N (pc₀, k₀)
        = (pc₀ + ∑ s ∈ Finset.range N,
            ray_color world (cam (((i:ℝ) + ξ (k₀ + 2*s)) / ((W:ℝ) - 1))
              (((j:ℝ) + ξ (k₀ + 2*s + 1)) / ((H:ℝ) - 1))) max_depth,
           k₀ + 2*N)) ∧
    (∀ (N k₀ : ℕ),
      pixelEmit cam world max_depth W H i j ξ k₀ N
        = write_color (∑ s ∈ Finset.range N,
            ray_color world (cam (((i:ℝ) + ξ (k₀ + 2*s)) / ((W:ℝ) - 1))
              (((j:ℝ) + ξ (k₀ + 2*s + 1)) / ((H:ℝ) - 1))) max_depth) N) := by
  have main : ∀ (N k₀ : ℕ) (pc₀ : color),
      sampleLoop cam world max_depth W H i j ξ N (pc₀, k₀)
        = (pc₀ + ∑ s ∈ Finset.range N,
            ray_color world (cam (((i:ℝ) + ξ (k₀ + 2*s)) / ((W:ℝ) - 1))
              (((j:ℝ) + ξ (k₀ + 2*s + 1)) / ((H:ℝ) - 1))) max_depth,
           k₀ + 2*N) := by
    intro N
    induction N with
    | zero => intro k₀ pc₀; simp [sampleLoop]
    | succ n ih =>
      intro k₀ pc₀
      rw [sampleLoop]
      rw [ih (k₀ + 2)]
      rw [Prod.mk.injEq]
      refine ⟨?_, by omega⟩
      simp only [Finset.sum_range_succ']
      have hc : (∑ s ∈ Finset.range n,
            ray_color world (cam (((i:ℝ) + ξ (k₀ + 2 + 2*s)) / ((W:ℝ) - 1))
              (((j:ℝ) + ξ (k₀ + 2 + 2*s + 1)) / ((H:ℝ) - 1))) max_depth)
          = ∑ s ∈ Finset.range n,
            ray_color world (cam (((i:ℝ) + ξ (k₀ + 2*(s+1))) / ((W:ℝ) - 1))
              (((j:ℝ) + ξ (k₀ + 2*(s+1) + 1)) / ((H:ℝ) - 1))) max_depth :=
        Finset.sum_congr rfl (fun s _ => by rw [show k₀ + 2 + 2*s = k₀ + 2*(s+1) by omega])
      rw [hc, show k₀ + 2*0 = k₀ by omega]
      abel
  refine ⟨main, fun N k₀ => ?_⟩
  unfold pixelEmit
  rw [main N k₀ ⟨0,0,0⟩]
  rw [show (⟨0,0,0⟩ : color) = 0 from rfl, zero_add]

lemma rowLoop_mem : ∀ (H j : ℕ), j ∈ rowLoop H ↔ j < H := by
  intro H
  induction H with
  | zero => intro j; simp [rowLoop]
  | succ h ih => intro j; simp [rowLoop, ih]; omega

lemma pixelOrder_mem (W H : ℕ) (p : ℕ × ℕ) :
    p ∈ pixelOrder W H ↔ p.1 < W ∧ p.2 < H := by
  unfold pixelOrder
  rw [List.mem_flatMap]
  constructor
  · rintro ⟨j, hj, hp⟩
    rw [List.mem_map] at hp
    obtain ⟨i, hi, rfl⟩ := hp
    exact ⟨List.mem_range.mp hi, (rowLoop_mem H j).mp hj⟩
  · rintro ⟨h1, h2⟩
    exact ⟨p.2, (rowLoop_mem H p.2).mpr h2,
      List.mem_map.mpr ⟨p.1, List.mem_range.mpr h1, rfl⟩⟩

lemma pixelOrder_nodup (W H : ℕ) : (pixelOrder W H).Nodup := by
  induction H with
  | zero => exact List.nodup_nil
  | succ h ih =>
    rw [show pixelOrder W (h+1)
        = (List.range W).map (fun i => (i, h)) ++ pixelOrder W h from rfl,
      List.nodup_append]
    refine ⟨(List.nodup_range W).map ?_, ih, ?_⟩
    · intro a b hab
      simpa using hab
    · intro p hp hp'
      rw [List.mem_map] at hp
      obtain ⟨i, _, rfl⟩ := hp
      have := ((pixelOrder_mem W h (i, h)).mp hp').2
      omega

lemma pixelOrder_pairwise (W H : ℕ) :
    (pixelOrder W H).Pairwise (fun p q => q.2 < p.2 ∨ (p.2 = q.2 ∧ p.1 < q.1)) := by
  induction H with
  | zero => exact List.Pairwise.nil
  | succ h ih =>
    rw [show pixelOrder W (h+1)
        = (List.range W).map (fun i => (i, h)) ++ pixelOrder W h from rfl,
      List.pairwise_append]
    refine ⟨List.pairwise_map.mpr ?_, ih, ?_⟩
    · exact (List.pairwise_lt_range W).imp (fun hab => Or.inr ⟨rfl, hab⟩)
    · intro a ha b hb
      rw [List.mem_map] at ha
      obtain ⟨i, _, rfl⟩ := ha
      exact Or.inl ((pixelOrder_mem W h b).mp hb).2

lemma nodup_count_one : ∀ (l : List (ℕ × ℕ)), l.Nodup → ∀ p ∈ l, l.count p = 1 := by
  intro l
  induction l with
  | nil => intro _ p hp; simp at hp
  | cons a t ih =>
    intro hn p hp
    obtain ⟨ha, ht⟩ := List.nodup_cons.mp hn
    rw [List.count_cons]
    rcases List.mem_cons.mp hp with rfl | hmem
    · rw [List.count_eq_zero.mpr ha]
      simp
    · rw [ih ht p hmem]
      have hne : ¬(p = a) := fun h => ha (h ▸ hmem)
      simp [beq_iff_eq, hne]
      exact fun h => hne h.symm

/-- C6: the driver's emission order — any pixel emitted earlier than
another is in a strictly higher row, or in the same row strictly to the
left; exactly the pixels with `i < W, j < H` are emitted, each exactly
once; and (for a non-empty image) the first pixel emitted is `(0, H−1)`
(top row first) and the last is `(W−1, 0)`. -/
theorem pixel_emission_order (W H : ℕ) :
    ((pixelOrder W H).Pairwise fun p q => q.2 < p.2 ∨ (p.2 = q.2 ∧ p.1 < q.1)) ∧
    (∀ p : ℕ × ℕ, p ∈ pixelOrder W H ↔ p.1 < W ∧ p.2 < H) ∧
    (∀ p : ℕ × ℕ, p.1 < W → p.2 < H → (pixelOrder W H).count p = 1) ∧
    (0 < W → 0 < H →
      (pixelOrder W H).head? = some (0, H - 1) ∧
      (pixelOrder W H).getLast? = some (W - 1, 0)) := by
  refine ⟨pixelOrder_pairwise W H, pixelOrder_mem W H,
    fun p h1 h2 => nodup_count_one _ (pixelOrder_nodup W H) p
      ((pixelOrder_mem W H p).mpr ⟨h1, h2⟩), fun hW hH => ?_⟩
  obtain ⟨w, rfl⟩ : ∃ w, W = w + 1 := ⟨W - 1, by omega⟩
  obtain ⟨h, rfl⟩ : ∃ h, H = h + 1 := ⟨H - 1, by omega⟩
  constructor
  · rw [show pixelOrder (w+1) (h+1)
        = (List.range (w+1)).map (fun i => (i, h)) ++ pixelOrder (w+1) h from rfl]
    rw [List.head?_append_of_ne_nil _ (by simp [List.range_succ_eq_map])]
    rw [List.range_succ_eq_map]
    simp
  · have hlast : ∀ (m : ℕ), (pixelOrder (w+1) (m+1)).getLast? = some (w, 0) := by
      intro m
      induction m with
      | zero =>
        rw [show pixelOrder (w+1) 1
            = (List.range (w+1)).map (fun i => (i, 0)) ++ [] from rfl]
        rw [List.append_nil, List.range_succ, List.map_append]
        exact List.getLast?_concat _
      | succ m ih =>
        rw [show pixelOrder (w+1) (m+2)
            = (List.range (w+1)).map (fun i => (i, m+1)) ++ pixelOrder (w+1) (m+1) from rfl]
        rw [List.getLast?_append_of_ne_nil _ ?_, ih]
        intro hnil
        have hm := (pixelOrder_mem (w+1) (m+1) (0, 0)).mpr ⟨by omega, by omega⟩
        rw [hnil] at hm
        simp at hm
    simpa using hlast h

/-- C6 witness: for a 3×2 image the first emitted pixel is `(0, 1)`, the
last is `(2, 0)`, and pixel `(1, 1)` is emitted exactly once. -/
theorem pixel_emission_order_witness :
    (pixelOrder 3 2).head? = some (0, 1) ∧
    (pixelOrder 3 2).getLast? = some (2, 0) ∧
    (pixelOrder 3 2).count (1, 1) = 1 := by
  have h := pixel_emission_order 3 2
  exact ⟨(h.2.2.2 (by norm_num) (by norm_num)).1,
    (h.2.2.2 (by norm_num) (by norm_num)).2,
    h.2.2.1 (1, 1) (by norm_num) (by norm_num)⟩

/-- C7: every rendered stream begins with exactly the header
`"P3" ⟨nl⟩ width ⟨space⟩ height ⟨nl⟩ "255" ⟨nl⟩` before any pixel data; in
particular a 10×20 render begins with the literal bytes
`"P3\n10 20\n255\n"`. -/
theorem ppm_header_exact :
    (∀ body : String, ppmStream 10 20 body = "P3\n10 20\n255\n" ++ body) ∧
    (∀ (W H : ℤ) (body : String),
      ppmStream W H body
        = ("P3\n" ++ toString W ++ " " ++ toString H ++ "\n255\n") ++ body) := by
  constructor
  · intro body
    rfl
  · intro W H body
    rfl

/-- C8 counterexample: at `image_width = 300`, `aspect_ratio = 16/9` the
quotient is `168.75`; the code's `static_cast<int>` truncation gives 168
while rounding to the nearest integer gives 169, so the derived height is
not `round(width / aspect_ratio)`. -/
theorem image_height_not_round :
    derivedImageHeight 300 (16/9) ≠ round ((300 : ℚ) / (16/9)) := by
  norm_num [derivedImageHeight, staticCastInt, round_eq]

/-- C8 (amended): for non-negative width and positive aspect ratio the
derived image height is the quotient `width / aspect_ratio` truncated
toward zero, i.e. its floor — not the nearest integer. -/
theorem image_height_truncates (w : ℤ) (ar : ℚ) (hw : 0 ≤ w) (har : 0 < ar) :
    derivedImageHeight w ar = ⌊(w : ℚ) / ar⌋ := by
  unfold derivedImageHeight staticCastInt
  rw [if_pos (div_nonneg (by exact_mod_cast hw) har.le)]

/-- C8 witness: at the driver's actual parameters `image_width = 500`,
`aspect_ratio = 16/9` the truncated quotient `⌊281.25⌋` is the height 281
the program uses. -/
theorem image_height_truncates_witness :
    derivedImageHeight 500 (16/9) = ⌊(500 : ℚ) / (16/9)⌋ ∧
    derivedImageHeight 500 (16/9) = 281 := by
  have h := image_height_truncates 500 (16/9) (by norm_num) (by norm_num)
  refine ⟨h, ?_⟩
  norm_num [derivedImageHeight, staticCastInt]
